import Mathlib

/-!
Shallow embedding of `server.js`, the socket.io relay of the meeting-room
repository. The mutable module state (`drawingHistory`, `userNames`,
`screenSharerId`) becomes a `ServerState` record; every socket event handler
becomes one arm of the `step` function, which returns the successor state
together with the ordered list of messages the handler emits. JavaScript
`Map` insertion-order semantics are modelled by an association list, and the
`Math.random()` calls inside `getRandomColor` are modelled by an explicit
stream of colors threaded through the state. A handler that throws a
`TypeError` (e.g. `null.forEach`) is modelled by the `thrown` result, carrying
the state and messages produced before the exception. A batch payload is a
`JsArg`: a real array, a string (not an array, yet it has an `includes`
method, which matters to the delete_batch handler), or any other non-array
value such as `null`, `undefined`, a number or a plain object.
-/

/-- A drawing operation: a stable client-assigned `id` plus tool-specific
fields that the server never inspects, modelled as one opaque string. -/
structure DrawOp where
  id : String
  payload : String
deriving DecidableEq, Repr

/-- A JavaScript value arriving as a batch payload: a genuine array of `α`,
a string (for which `Array.isArray` is false but `String.prototype.includes`
exists), or any other non-array value — `null`, `undefined`, a number, a
plain object — which has neither `forEach` nor `includes`. -/
inductive JsArg (α : Type) where
  | arr : List α → JsArg α
  | str : String → JsArg α
  | other : JsArg α
deriving DecidableEq, Repr

/-- Who a message is delivered to: `io.emit` (all sockets),
`socket.broadcast.emit` (all sockets except the sender), or
`socket.emit` / `io.to(id).emit` (one socket). -/
inductive Recipient where
  | toAll : Recipient
  | broadcastFrom : String → Recipient
  | toSocket : String → Recipient
deriving DecidableEq, Repr

/-- The payloads of the outbound events `server.js` emits. -/
inductive Payload where
  | userNotification : String → String → Payload
  | init : List DrawOp → Payload
  | userCount : Nat → Payload
  | screenShareActive : String → Payload
  | allUsers : List String → Payload
  | drawBatchMsg : List DrawOp → Payload
  | cursorMsg : String → Int → Int → String → Payload
  | updateBatchMsg : List DrawOp → Payload
  | deleteBatchMsg : JsArg String → Payload
  | syncHistory : List DrawOp → Payload
  | clearMsg : Payload
  | userJoinedAudio : String → String → Payload
  | receivingReturnedSignal : String → String → Payload
  | iceCandidateMsg : String → String → Payload
  | screenShareStarted : String → Payload
  | screenShareStopped : Payload
  | screenSignalMsg : String → String → Payload
  | userDisconnected : String → Payload
deriving DecidableEq, Repr

/-- One outbound message: recipient, payload, and whether it was sent on the
volatile (best-effort) channel, as the cursor broadcast is. -/
structure Msg where
  recipient : Recipient
  payload : Payload
  volatile : Bool
deriving DecidableEq, Repr

/-- The server's mutable state: the three module-level variables of
`server.js`, plus the oracle stream of colors consumed by `getRandomColor`.
`userNames` is a JavaScript `Map` in insertion order. -/
structure ServerState where
  drawingHistory : List DrawOp
  userNames : List (String × String)
  screenSharerId : Option String
  rng : List String
deriving DecidableEq, Repr

/-- The inbound socket events, each tagged with the sender's socket id.
Batch payloads are arbitrary `JsArg` values, so the malformed non-array
cases (string vs. everything else) are both representable. -/
inductive Event where
  | joinRoom : String → Option String → Event
  | drawBatch : String → JsArg DrawOp → Event
  | cursor : String → Int → Int → Event
  | updateBatch : String → JsArg DrawOp → Event
  | deleteBatch : String → JsArg String → Event
  | undo : String → Event
  | clear : String → Event
  | sendingSignal : String → String → String → String → Event
  | returningSignal : String → String → String → Event
  | iceCandidate : String → String → String → Event
  | startScreenShare : String → Event
  | stopScreenShare : String → Event
  | screenSignal : String → String → String → Event
  | disconnect : String → Event
deriving DecidableEq, Repr

/-- Result of one handler: normal completion or an uncaught exception
(`thrown`), either way with the state and the messages emitted so far. -/
inductive StepResult where
  | ok : ServerState → List Msg → StepResult
  | thrown : ServerState → List Msg → StepResult
deriving DecidableEq, Repr

/-- `Map.prototype.set`: replaces in place if the key is present (keeping its
position), else appends at the end. -/
def mapSet : List (String × String) → String → String → List (String × String)
  | [], k, v => [(k, v)]
  | p :: rest, k, v => if p.1 = k then (k, v) :: rest else p :: mapSet rest k v

/-- `Map.prototype.get`: first binding of the key, if any. -/
def mapGet : List (String × String) → String → Option String
  | [], _ => none
  | p :: rest, k => if p.1 = k then some p.2 else mapGet rest k

/-- `Map.prototype.delete`: removes the binding of the key. -/
def mapDelete (m : List (String × String)) (k : String) : List (String × String) :=
  m.filter (fun p => p.1 != k)

/-- `name || `User-${socket.id.substr(0,4)}``: the requested name unless it is
absent or falsy (the empty string). -/
def safeNameOf (sid : String) (name : Option String) : String :=
  match name with
  | some n => if n = "" then "User-" ++ sid.take 4 else n
  | none => "User-" ++ sid.take 4

/-- Does `hay` start with `needle` (character lists)? -/
def charsStartsWith : List Char → List Char → Bool
  | _, [] => true
  | [], _ :: _ => false
  | a :: as, b :: bs => a == b && charsStartsWith as bs

/-- Does `needle` occur as a contiguous run inside `hay` (character lists)? -/
def charsContains : List Char → List Char → Bool
  | [], needle => charsStartsWith [] needle
  | a :: rest, needle => charsStartsWith (a :: rest) needle || charsContains rest needle

/-- `String.prototype.includes`: substring containment, as JavaScript gives a
string payload handed to the delete_batch filter. -/
def jsIncludes (hay needle : String) : Bool :=
  charsContains hay.data needle.data

/-- `Array.prototype.findIndex` on the history, as used by the
`update_batch` handler. -/
def findIndex (p : DrawOp → Bool) : List DrawOp → Option Nat
  | [] => none
  | a :: l => if p a then some 0 else (findIndex p l).map (· + 1)

/-- One iteration of the `update_batch` forEach body:
`const index = drawingHistory.findIndex(i => i.id === updated.id);
if (index !== -1) drawingHistory[index] = updated;`. -/
def updateOne (h : List DrawOp) (upd : DrawOp) : List DrawOp :=
  match findIndex (fun i => i.id == upd.id) h with
  | some idx => h.set idx upd
  | none => h

/-- The whole `updatedItems.forEach(...)` loop of the `update_batch` handler. -/
def updateBatchFn (items : List DrawOp) (h : List DrawOp) : List DrawOp :=
  items.foldl updateOne h

/-- `getRandomColor()`: consumes the next value of the random-color oracle
stream (`Math.random()` is modelled by the stream). -/
def getRandomColor (rng : List String) : String × List String :=
  (rng.headD "#000000", rng.tail)

/-- One socket event handler of `server.js`, in source order. -/
def step (s : ServerState) (e : Event) : StepResult :=
  match e with
  | .joinRoom c name =>
      let safeName := safeNameOf c name
      let names' := mapSet s.userNames c safeName
      let shareMsgs := match s.screenSharerId with
        | some sid => [Msg.mk (.toSocket c) (.screenShareActive sid) false]
        | none => []
      .ok { s with userNames := names' }
        ([Msg.mk (.broadcastFrom c) (.userNotification "join" (safeName ++ " Joined")) false,
          Msg.mk (.toSocket c) (.init s.drawingHistory) false,
          Msg.mk (.toSocket c) (.userCount names'.length) false,
          Msg.mk (.broadcastFrom c) (.userCount names'.length) false]
         ++ shareMsgs
         ++ [Msg.mk (.toSocket c)
              (.allUsers ((names'.map Prod.fst).filter (fun id => id != c))) false])
  | .drawBatch c input =>
      match input with
      | .arr batch =>
          .ok { s with drawingHistory := s.drawingHistory ++ batch }
            [Msg.mk (.broadcastFrom c) (.drawBatchMsg batch) false]
      | .str _ => .ok s []
      | .other => .ok s []
  | .cursor c x y =>
      let (color, rng') := getRandomColor s.rng
      .ok { s with rng := rng' }
        [Msg.mk (.broadcastFrom c) (.cursorMsg c x y color) true]
  | .updateBatch c input =>
      match input with
      | .arr items =>
          .ok { s with drawingHistory := updateBatchFn items s.drawingHistory }
            [Msg.mk (.broadcastFrom c) (.updateBatchMsg items) false]
      | .str _ => .thrown s []
      | .other => .thrown s []
  | .deleteBatch c input =>
      match input with
      | .arr ids =>
          .ok { s with drawingHistory :=
                  s.drawingHistory.filter (fun item => !(ids.contains item.id)) }
            [Msg.mk (.broadcastFrom c) (.deleteBatchMsg (.arr ids)) false]
      | .str sIds =>
          .ok { s with drawingHistory :=
                  s.drawingHistory.filter (fun item => !(jsIncludes sIds item.id)) }
            [Msg.mk (.broadcastFrom c) (.deleteBatchMsg (.str sIds)) false]
      | .other =>
          match s.drawingHistory with
          | [] => .ok s [Msg.mk (.broadcastFrom c) (.deleteBatchMsg .other) false]
          | _ :: _ => .thrown s []
  | .undo _ =>
      match s.drawingHistory with
      | [] => .ok s []
      | _ :: _ =>
          .ok { s with drawingHistory := s.drawingHistory.dropLast }
            [Msg.mk .toAll (.syncHistory s.drawingHistory.dropLast) false]
  | .clear _ =>
      .ok { s with drawingHistory := [] } [Msg.mk .toAll .clearMsg false]
  | .sendingSignal _ userToSignal signal callerID =>
      .ok s [Msg.mk (.toSocket userToSignal) (.userJoinedAudio signal callerID) false]
  | .returningSignal c callerID signal =>
      .ok s [Msg.mk (.toSocket callerID) (.receivingReturnedSignal signal c) false]
  | .iceCandidate c target candidate =>
      .ok s [Msg.mk (.toSocket target) (.iceCandidateMsg candidate c) false]
  | .startScreenShare c =>
      match s.screenSharerId with
      | none =>
          .ok { s with screenSharerId := some c }
            [Msg.mk .toAll (.screenShareStarted c) false]
      | some _ => .ok s []
  | .stopScreenShare c =>
      if s.screenSharerId = some c then
        .ok { s with screenSharerId := none } [Msg.mk .toAll .screenShareStopped false]
      else .ok s []
  | .screenSignal c target signal =>
      .ok s [Msg.mk (.toSocket target) (.screenSignalMsg signal c) false]
  | .disconnect c =>
      let name := mapGet s.userNames c
      let names' := mapDelete s.userNames c
      let stopMsgs :=
        if s.screenSharerId = some c then [Msg.mk .toAll .screenShareStopped false]
        else ([] : List Msg)
      let sharer' := if s.screenSharerId = some c then none else s.screenSharerId
      let leaveMsgs := match name with
        | some n => [Msg.mk (.broadcastFrom c) (.userNotification "leave" (n ++ " Left")) false]
        | none => ([] : List Msg)
      .ok { s with userNames := names', screenSharerId := sharer' }
        ([Msg.mk .toAll (.userDisconnected c) false,
          Msg.mk .toAll (.userCount names'.length) false]
         ++ stopMsgs ++ leaveMsgs)

/-- The state after an event (on a throw, the state reached before it). -/
def stepState (s : ServerState) (e : Event) : ServerState :=
  match step s e with
  | .ok s' _ => s'
  | .thrown s' _ => s'

/-- The messages an event's handler emitted. -/
def stepOut (s : ServerState) (e : Event) : List Msg :=
  match step s e with
  | .ok _ out => out
  | .thrown _ out => out

/-- Whether the handler threw an uncaught exception. -/
def isThrown : StepResult → Bool
  | .ok _ _ => false
  | .thrown _ _ => true

/-- Run a sequence of events, resulting state. -/
def runState (s : ServerState) : List Event → ServerState
  | [] => s
  | e :: es => runState (stepState s e) es

/-- Run a sequence of events, concatenated message stream in emission order. -/
def runMsgs (s : ServerState) : List Event → List Msg
  | [] => []
  | e :: es => stepOut s e ++ runMsgs (stepState s e) es

/-- Fresh-start server state (empty history, empty registry, no sharer),
parameterized by the random-color oracle stream. -/
def initState (rng : List String) : ServerState :=
  { drawingHistory := [], userNames := [], screenSharerId := none, rng := rng }

/-- The ids a `draw_batch` event appends (empty for every other event). -/
def drawIds : Event → List String
  | .drawBatch _ (.arr b) => b.map DrawOp.id
  | _ => []

/-- All ids appended by `draw_batch` events across a trace, in order. -/
def traceDrawIds : List Event → List String
  | [] => []
  | e :: es => drawIds e ++ traceDrawIds es

/-- Whether a message is the `screen-share-stopped` broadcast. -/
def isStopMsg (m : Msg) : Bool :=
  match m.payload with
  | .screenShareStopped => true
  | _ => false

/-- The color field of a cursor broadcast, if the message is one. -/
def cursorColor (m : Msg) : Option String :=
  match m.payload with
  | .cursorMsg _ _ _ col => some col
  | _ => none

/-- Messages of a concatenated trace are the first segment's messages
followed by the second's, started from the intermediate state. -/
theorem runMsgs_append (es₁ es₂ : List Event) (s : ServerState) :
    runMsgs s (es₁ ++ es₂) = runMsgs s es₁ ++ runMsgs (runState s es₁) es₂ := by
  induction es₁ generalizing s with
  | nil => rfl
  | cons e es ih => simp [runMsgs, runState, ih, List.append_assoc]

theorem mapGet_mapSet_ne (m : List (String × String)) (k k' v : String) (h : k' ≠ k) :
    mapGet (mapSet m k v) k' = mapGet m k' := by
  induction m with
  | nil => simp [mapSet, mapGet, Ne.symm h]
  | cons p rest ih =>
      by_cases hp : p.1 = k
      · simp [mapSet, hp, mapGet, Ne.symm h]
      · simp [mapSet, hp, mapGet, ih]

theorem mapGet_mapDelete_ne (m : List (String × String)) (k k' : String) (h : k' ≠ k) :
    mapGet (mapDelete m k) k' = mapGet m k' := by
  induction m with
  | nil => simp [mapDelete, mapGet]
  | cons p rest ih =>
      by_cases hp : p.1 = k
      · simp [mapDelete, List.filter_cons, hp, mapGet, Ne.symm h] at ih ⊢
        exact ih
      · by_cases hk' : p.1 = k'
        · simp [mapDelete, List.filter_cons, bne_iff_ne, hp, mapGet, hk', h]
        · simp [mapDelete, List.filter_cons, bne_iff_ne, hp, mapGet, hk'] at ih ⊢
          exact ih

theorem mapDelete_of_absent (m : List (String × String)) (k : String)
    (h : mapGet m k = none) : mapDelete m k = m := by
  induction m with
  | nil => rfl
  | cons p rest ih =>
      by_cases hp : p.1 = k
      · simp [mapGet, hp] at h
      · simp only [mapGet, hp, if_false] at h
        have hbne : (p.1 != k) = true := by simp [bne_iff_ne, hp]
        simp only [mapDelete, List.filter_cons, hbne, if_true] at ih ⊢
        rw [ih h]

theorem findIndex_none_iff (p : DrawOp → Bool) (l : List DrawOp) :
    findIndex p l = none ↔ ∀ x ∈ l, p x = false := by
  induction l with
  | nil => simp [findIndex]
  | cons a t ih =>
      by_cases ha : p a = true
      · simp [findIndex, ha]
      · simp only [Bool.not_eq_true] at ha
        simp [findIndex, ha, ih, Option.map_eq_none']

theorem findIndex_some (p : DrawOp → Bool) (l : List DrawOp) (idx : Nat)
    (h : findIndex p l = some idx) :
    idx < l.length ∧ ∃ x, l.get? idx = some x ∧ p x = true := by
  induction l generalizing idx with
  | nil => simp [findIndex] at h
  | cons a t ih =>
      by_cases ha : p a = true
      · simp [findIndex, ha] at h
        subst h
        exact ⟨Nat.succ_pos _, a, rfl, ha⟩
      · simp only [Bool.not_eq_true] at ha
        simp only [findIndex, ha, Bool.false_eq_true, if_false, Option.map_eq_some'] at h
        obtain ⟨j, hj, hidx⟩ := h
        obtain ⟨hlt, x, hget, hpx⟩ := ih j hj
        subst hidx
        exact ⟨Nat.succ_lt_succ hlt, x, hget, hpx⟩

theorem set_of_get_eq {α : Type} (l : List α) (idx : Nat) (a : α)
    (h : l.get? idx = some a) : l.set idx a = l := by
  induction l generalizing idx with
  | nil => simp at h
  | cons b t ih =>
      cases idx with
      | zero =>
          simp only [List.get?] at h
          injection h with h
          simp [List.set, h]
      | succ n =>
          simp only [List.get?] at h
          simp [List.set, ih n h]

/-- Replacing an entry by one with the same `id` (as `update_batch` does)
leaves the list of ids unchanged. -/
theorem map_id_updateOne (h : List DrawOp) (upd : DrawOp) :
    (updateOne h upd).map DrawOp.id = h.map DrawOp.id := by
  unfold updateOne
  cases hf : findIndex (fun i => i.id == upd.id) h with
  | none => rfl
  | some idx =>
      obtain ⟨-, x, hget, hpx⟩ := findIndex_some _ _ _ hf
      have hid : x.id = upd.id := by simpa using hpx
      rw [List.map_set]
      apply set_of_get_eq
      rw [List.get?_eq_getElem?, List.getElem?_map]
      rw [List.get?_eq_getElem?] at hget
      rw [hget, Option.map_some', hid]

theorem map_id_updateBatchFn (items : List DrawOp) (h : List DrawOp) :
    (updateBatchFn items h).map DrawOp.id = h.map DrawOp.id := by
  induction items generalizing h with
  | nil => rfl
  | cons i is ih =>
      show (updateBatchFn is (updateOne h i)).map DrawOp.id = h.map DrawOp.id
      rw [ih, map_id_updateOne]

/-- After any single event, the ids of the history form a sublist of the
previous ids followed by the ids that event appended. -/
theorem historyIds_step_sublist (s : ServerState) (e : Event) :
    List.Sublist ((stepState s e).drawingHistory.map DrawOp.id)
      (s.drawingHistory.map DrawOp.id ++ drawIds e) := by
  cases e with
  | joinRoom c name =>
      simp [stepState, step, drawIds]
  | drawBatch c input =>
      cases input with
      | arr batch => simp [stepState, step, drawIds]
      | str st => simp [stepState, step, drawIds]
      | other => simp [stepState, step, drawIds]
  | cursor c x y => simp [stepState, step, drawIds]
  | updateBatch c input =>
      cases input with
      | arr items =>
          simp [stepState, step, drawIds, map_id_updateBatchFn]
      | str st => simp [stepState, step, drawIds]
      | other => simp [stepState, step, drawIds]
  | deleteBatch c input =>
      cases input with
      | arr ids =>
          simp only [stepState, step, drawIds, List.append_nil]
          exact (List.filter_sublist _).map DrawOp.id
      | str sIds =>
          simp only [stepState, step, drawIds, List.append_nil]
          exact (List.filter_sublist _).map DrawOp.id
      | other =>
          cases hd : s.drawingHistory with
          | nil => simp [stepState, step, drawIds, hd]
          | cons a t => simp [stepState, step, drawIds, hd]
  | undo c =>
      cases hd : s.drawingHistory with
      | nil => simp [stepState, step, drawIds, hd]
      | cons a t =>
          simp only [stepState, step, drawIds, hd, List.append_nil]
          exact (List.dropLast_sublist (a :: t)).map DrawOp.id
  | clear c => simp [stepState, step, drawIds]
  | sendingSignal c t sig cid => simp [stepState, step, drawIds]
  | returningSignal c cid sig => simp [stepState, step, drawIds]
  | iceCandidate c t cand => simp [stepState, step, drawIds]
  | startScreenShare c =>
      cases hs : s.screenSharerId with
      | none => simp [stepState, step, drawIds, hs]
      | some o => simp [stepState, step, drawIds, hs]
  | stopScreenShare c =>
      by_cases hs : s.screenSharerId = some c
      · simp [stepState, step, drawIds, hs]
      · simp [stepState, step, drawIds, hs]
  | screenSignal c t sig => simp [stepState, step, drawIds]
  | disconnect c => simp [stepState, step, drawIds]

/-- Over a whole trace, the history's ids form a sublist of the starting ids
followed by all ids appended by the trace's `draw_batch` events. -/
theorem historyIds_runState_sublist (es : List Event) (s : ServerState) :
    List.Sublist ((runState s es).drawingHistory.map DrawOp.id)
      (s.drawingHistory.map DrawOp.id ++ traceDrawIds es) := by
  induction es generalizing s with
  | nil => simp [runState, traceDrawIds]
  | cons e es ih =>
      have h₁ := historyIds_step_sublist s e
      have h₂ := ih (stepState s e)
      have h₃ := h₁.append_right (traceDrawIds es)
      have h₄ := h₂.trans h₃
      simpa [runState, traceDrawIds, List.append_assoc] using h₄

/-- Claim C1, counterexample: a single draw_batch whose two ops share the id
"a" is appended unchecked, so the resulting History holds two entries with
the same id. -/
theorem drawBatchDuplicateIds_cex :
    ((runState (initState []) [.drawBatch "c" (.arr [⟨"a", "p1"⟩, ⟨"a", "p2"⟩])]).drawingHistory.map
        DrawOp.id) = ["a", "a"]
    ∧ ¬ ((runState (initState []) [.drawBatch "c" (.arr [⟨"a", "p1"⟩, ⟨"a", "p2"⟩])]).drawingHistory.map
        DrawOp.id).Nodup := by
  decide

/-- Claim C1 (amended): provided the ids carried by the trace's draw_batch
events are pairwise distinct across the whole trace (client-assigned ids are
unique), the History resulting from any sequence of events applied to the
empty history never contains two entries with the same id: update_batch
preserves the multiset of ids exactly and delete_batch only removes. -/
theorem historyIdsUnique (rng : List String) (es : List Event)
    (h : (traceDrawIds es).Nodup) :
    ((runState (initState rng) es).drawingHistory.map DrawOp.id).Nodup := by
  have hs := historyIds_runState_sublist es (initState rng)
  simp only [initState, List.map_nil, List.nil_append] at hs
  exact h.sublist hs

theorem historyIdsUnique_witness :
    ((runState (initState []) [.drawBatch "c" (.arr [⟨"a", "p"⟩]),
        .updateBatch "c" (.arr [⟨"a", "q"⟩]), .deleteBatch "c" (.arr ["z"]),
        .drawBatch "c" (.arr [⟨"b", "r"⟩])]).drawingHistory.map DrawOp.id).Nodup :=
  historyIdsUnique [] [.drawBatch "c" (.arr [⟨"a", "p"⟩]),
    .updateBatch "c" (.arr [⟨"a", "q"⟩]), .deleteBatch "c" (.arr ["z"]),
    .drawBatch "c" (.arr [⟨"b", "r"⟩])] (by decide)

/-- Claim C3, counterexample: an update_batch whose payload is not an array
(modelled by `JsArg.other`, e.g. `null`) makes the handler throw
(`null.forEach` is a TypeError), so the handler is not a no-op that never
fails. -/
theorem malformedUpdateThrows_cex :
    isThrown (step (initState []) (.updateBatch "c" .other)) = true := by decide

/-- Claim C3 (amended): only draw_batch silently rejects every non-array
payload (the `Array.isArray` guard): no failure, no state change, no message.
A non-array update_batch payload makes the handler throw before any mutation
(neither strings nor other non-arrays have `forEach`). A delete_batch payload
without an `includes` method (e.g. `null`) throws when the history is
non-empty and otherwise completes, broadcasting the malformed payload; a
string delete_batch payload is not rejected at all — `String.prototype.includes`
exists, so the filter completes without error, removes every entry whose id
is a substring of the string (the History can change), and broadcasts the
string. -/
theorem malformedBatchHandling :
    (∀ s c input, (∀ b, input ≠ JsArg.arr b) → step s (.drawBatch c input) = .ok s [])
  ∧ (∀ s c input, (∀ b, input ≠ JsArg.arr b) → step s (.updateBatch c input) = .thrown s [])
  ∧ (∀ s c, s.drawingHistory = [] →
      step s (.deleteBatch c .other)
        = .ok s [Msg.mk (.broadcastFrom c) (.deleteBatchMsg .other) false])
  ∧ (∀ s c, s.drawingHistory ≠ [] → step s (.deleteBatch c .other) = .thrown s [])
  ∧ (∀ s c sIds, step s (.deleteBatch c (.str sIds))
      = .ok { s with drawingHistory :=
              s.drawingHistory.filter (fun item => !(jsIncludes sIds item.id)) }
          [Msg.mk (.broadcastFrom c) (.deleteBatchMsg (.str sIds)) false]) := by
  refine ⟨?_, ?_, ?_, ?_, fun s c sIds => rfl⟩
  · intro s c input h
    cases input with
    | arr b => exact absurd rfl (h b)
    | str st => rfl
    | other => rfl
  · intro s c input h
    cases input with
    | arr b => exact absurd rfl (h b)
    | str st => rfl
    | other => rfl
  · intro s c h
    simp [step, h]
  · intro s c h
    cases hd : s.drawingHistory with
    | nil => exact absurd hd h
    | cons a t => simp [step, hd]

theorem malformedBatchHandling_witness :
    step (initState []) (.drawBatch "c" (.str "oops")) = .ok (initState []) []
  ∧ step (initState []) (.updateBatch "c" .other) = .thrown (initState []) []
  ∧ step (initState []) (.deleteBatch "c" .other)
      = .ok (initState []) [Msg.mk (.broadcastFrom "c") (.deleteBatchMsg .other) false]
  ∧ step { initState [] with drawingHistory := [⟨"a", "p"⟩] } (.deleteBatch "c" .other)
      = .thrown { initState [] with drawingHistory := [⟨"a", "p"⟩] } []
  ∧ step { initState [] with drawingHistory := [⟨"a", "p"⟩, ⟨"xyz", "q"⟩] }
        (.deleteBatch "c" (.str "abc"))
      = .ok { initState [] with drawingHistory := [⟨"xyz", "q"⟩] }
          [Msg.mk (.broadcastFrom "c") (.deleteBatchMsg (.str "abc")) false] :=
  ⟨malformedBatchHandling.1 (initState []) "c" (.str "oops") (fun _ h => JsArg.noConfusion h),
   malformedBatchHandling.2.1 (initState []) "c" .other (fun _ h => JsArg.noConfusion h),
   malformedBatchHandling.2.2.1 (initState []) "c" rfl,
   malformedBatchHandling.2.2.2.1 _ "c" (by decide),
   malformedBatchHandling.2.2.2.2 { initState [] with drawingHistory := [⟨"a", "p"⟩, ⟨"xyz", "q"⟩] }
     "c" "abc"⟩

/-- Claim C4: across every trace the lock state is a single optional owner,
so two simultaneous owners coincide; and start-screen-share while any owner
holds the lock (the same or a different connection) is a no-op that changes
nothing and emits no broadcast. -/
theorem screenShareExclusive :
    (∀ rng es c c', (runState (initState rng) es).screenSharerId = some c →
        (runState (initState rng) es).screenSharerId = some c' → c = c')
  ∧ (∀ s c, s.screenSharerId.isSome = true → step s (.startScreenShare c) = .ok s []) := by
  constructor
  · intro rng es c c' h h'
    rw [h] at h'
    exact Option.some.inj h'
  · intro s c h
    cases hs : s.screenSharerId with
    | none => rw [hs] at h; simp at h
    | some o => simp [step, hs]

theorem screenShareExclusive_witness :
    step { drawingHistory := [], userNames := [], screenSharerId := some "x", rng := [] }
        (.startScreenShare "y")
      = .ok { drawingHistory := [], userNames := [], screenSharerId := some "x", rng := [] } []
  ∧ ("x" : String) = "x" :=
  ⟨screenShareExclusive.2 _ "y" rfl,
   screenShareExclusive.1 [] [.startScreenShare "x"] "x" "x" rfl rfl⟩

/-- Claim C5: undo on an empty History is a no-op with no broadcast (in
particular no sync_history); undo on a non-empty History removes exactly the
log-order last entry and broadcasts the remaining snapshot as sync_history to
all sockets, sender included. -/
theorem undoSemantics :
    (∀ s c, s.drawingHistory = [] → step s (.undo c) = .ok s [])
  ∧ (∀ s c, s.drawingHistory ≠ [] →
      step s (.undo c)
        = .ok { s with drawingHistory := s.drawingHistory.dropLast }
            [Msg.mk .toAll (.syncHistory s.drawingHistory.dropLast) false]
      ∧ ∃ last, s.drawingHistory = s.drawingHistory.dropLast ++ [last]) := by
  constructor
  · intro s c h
    simp [step, h]
  · intro s c h
    cases hd : s.drawingHistory with
    | nil => exact absurd hd h
    | cons a t =>
        refine ⟨by simp [step, hd], (a :: t).getLast (by simp), ?_⟩
        exact (List.dropLast_append_getLast (by simp)).symm

theorem undoSemantics_witness :
    step (initState []) (.undo "c") = .ok (initState []) []
  ∧ (step { initState [] with drawingHistory := [⟨"a", "p"⟩, ⟨"b", "q"⟩] } (.undo "c")
      = .ok { initState [] with drawingHistory := [⟨"a", "p"⟩] }
          [Msg.mk .toAll (.syncHistory [⟨"a", "p"⟩]) false]
    ∧ ∃ last, ([⟨"a", "p"⟩, ⟨"b", "q"⟩] : List DrawOp) = [⟨"a", "p"⟩] ++ [last]) :=
  ⟨undoSemantics.1 (initState []) "c" rfl,
   undoSemantics.2 { initState [] with drawingHistory := [⟨"a", "p"⟩, ⟨"b", "q"⟩] } "c"
     (by decide)⟩

/-- Claim C6: a disconnect of the current screen-share owner clears the owner
and broadcasts exactly one screen-share-stopped; a disconnect of any other
connection broadcasts no stop and leaves the owner unchanged. -/
theorem disconnectReleasesLock :
    (∀ s c, s.screenSharerId = some c →
        (stepState s (.disconnect c)).screenSharerId = none
        ∧ ((stepOut s (.disconnect c)).filter isStopMsg).length = 1)
  ∧ (∀ s c, s.screenSharerId ≠ some c →
        (stepState s (.disconnect c)).screenSharerId = s.screenSharerId
        ∧ ((stepOut s (.disconnect c)).filter isStopMsg).length = 0) := by
  constructor
  · intro s c h
    cases hn : mapGet s.userNames c with
    | none => simp [stepState, stepOut, step, h, hn, isStopMsg, List.filter]
    | some n => simp [stepState, stepOut, step, h, hn, isStopMsg, List.filter]
  · intro s c h
    cases hn : mapGet s.userNames c with
    | none => simp [stepState, stepOut, step, h, hn, isStopMsg, List.filter]
    | some n => simp [stepState, stepOut, step, h, hn, isStopMsg, List.filter]

theorem disconnectReleasesLock_witness :
    ((stepState { initState [] with screenSharerId := some "c" } (.disconnect "c")).screenSharerId
        = none
    ∧ ((stepOut { initState [] with screenSharerId := some "c" } (.disconnect "c")).filter
        isStopMsg).length = 1)
  ∧ ((stepState { initState [] with screenSharerId := some "d" } (.disconnect "c")).screenSharerId
        = some "d"
    ∧ ((stepOut { initState [] with screenSharerId := some "d" } (.disconnect "c")).filter
        isStopMsg).length = 0) :=
  ⟨disconnectReleasesLock.1 { initState [] with screenSharerId := some "c" } "c" rfl,
   disconnectReleasesLock.2 { initState [] with screenSharerId := some "d" } "c" (by decide)⟩

/-- Claim C7, counterexample: the sending-signal relay annotates the
forwarded payload with the payload-supplied callerID, not the actual
sender's socket id — here the sender "s" forwards with callerID "evil". -/
theorem sendingSignalSpoof_cex :
    stepOut (initState []) (.sendingSignal "s" "t" "sig" "evil")
      = [Msg.mk (.toSocket "t") (.userJoinedAudio "sig" "evil") false]
    ∧ ("evil" : String) ≠ "s" := by decide

/-- Claim C7 (amended): every signaling event is relayed to exactly the
connection named by its target field; returning-signal, ice-candidate and
screen-signal annotate the payload with the actual sender's socket id, while
sending-signal annotates it with the payload-supplied callerID, which need
not be the sender. -/
theorem signalingRelayDelivery :
    (∀ s c t sig cid, step s (.sendingSignal c t sig cid)
        = .ok s [Msg.mk (.toSocket t) (.userJoinedAudio sig cid) false])
  ∧ (∀ s c cid sig, step s (.returningSignal c cid sig)
        = .ok s [Msg.mk (.toSocket cid) (.receivingReturnedSignal sig c) false])
  ∧ (∀ s c t cand, step s (.iceCandidate c t cand)
        = .ok s [Msg.mk (.toSocket t) (.iceCandidateMsg cand c) false])
  ∧ (∀ s c t sig, step s (.screenSignal c t sig)
        = .ok s [Msg.mk (.toSocket t) (.screenSignalMsg sig c) false]) :=
  ⟨fun _ _ _ _ _ => rfl, fun _ _ _ _ => rfl, fun _ _ _ _ => rfl, fun _ _ _ _ => rfl⟩

/-- Claim C2: a joiner's init message carries exactly the History as of
immediately before the join (the join handler reads it unmutated), it is the
only init message the join emits, and the full message stream of any trace
decomposes around the join — every message emitted by an event before the
join sits strictly before the join's own output in delivery order, so no
pre-join mutation broadcast is ever delivered after the join
(snapshot-then-stream). -/
theorem joinSnapshotThenStream (pre post : List Event) (c : String) (nm : Option String)
    (rng : List String) :
    (Msg.mk (.toSocket c) (.init (runState (initState rng) pre).drawingHistory) false
        ∈ stepOut (runState (initState rng) pre) (.joinRoom c nm))
  ∧ (∀ h, Msg.mk (.toSocket c) (.init h) false
        ∈ stepOut (runState (initState rng) pre) (.joinRoom c nm)
      → h = (runState (initState rng) pre).drawingHistory)
  ∧ runMsgs (initState rng) (pre ++ .joinRoom c nm :: post)
      = runMsgs (initState rng) pre
        ++ stepOut (runState (initState rng) pre) (.joinRoom c nm)
        ++ runMsgs (stepState (runState (initState rng) pre) (.joinRoom c nm)) post := by
  refine ⟨?_, ?_, ?_⟩
  · cases hs : (runState (initState rng) pre).screenSharerId with
    | none => simp [stepOut, step, hs]
    | some o => simp [stepOut, step, hs]
  · intro h hmem
    cases hs : (runState (initState rng) pre).screenSharerId with
    | none =>
        simp [stepOut, step, hs] at hmem
        exact hmem
    | some o =>
        simp [stepOut, step, hs] at hmem
        exact hmem
  · rw [runMsgs_append]
    simp [runMsgs, List.append_assoc]

theorem joinSnapshotThenStream_witness :
    Msg.mk (.toSocket "b")
        (.init (runState (initState []) [.drawBatch "a" (.arr [⟨"x", "p"⟩])]).drawingHistory) false
      ∈ stepOut (runState (initState []) [.drawBatch "a" (.arr [⟨"x", "p"⟩])])
          (.joinRoom "b" (some "Bob"))
  ∧ ([⟨"x", "p"⟩] : List DrawOp)
      = (runState (initState []) [.drawBatch "a" (.arr [⟨"x", "p"⟩])]).drawingHistory :=
  ⟨(joinSnapshotThenStream [.drawBatch "a" (.arr [⟨"x", "p"⟩])] [] "b" (some "Bob") []).1,
   (joinSnapshotThenStream [.drawBatch "a" (.arr [⟨"x", "p"⟩])] [] "b" (some "Bob") []).2.1
     [⟨"x", "p"⟩] (by decide)⟩

/-- Claim C8, counterexample: no color is stored at join, and the cursor
handler samples a fresh random color per event — with the random oracle
producing two different colors, two cursor broadcasts of the same joined
connection carry different colors. -/
theorem cursorColorVaries_cex :
    ((runMsgs (initState ["#AAAAAA", "#BBBBBB"])
        [.joinRoom "c" (some "Ann"), .cursor "c" 0 0, .cursor "c" 1 1]).filterMap cursorColor
      = ["#AAAAAA", "#BBBBBB"])
    ∧ ("#AAAAAA" : String) ≠ "#BBBBBB" := by decide

/-- Claim C8 (amended): the display name is assigned at join and is unchanged
by every event other than another join or the disconnect of that same
connection; no color is assigned at join, and every cursor broadcast carries
a color freshly sampled from the random oracle, independent of the
registry. -/
theorem cursorFreshColorNameStable :
    (∀ s c x y, step s (.cursor c x y)
        = .ok { s with rng := s.rng.tail }
            [Msg.mk (.broadcastFrom c) (.cursorMsg c x y (s.rng.headD "#000000")) true])
  ∧ (∀ s e c, (∀ nm, e ≠ .joinRoom c nm) → e ≠ .disconnect c →
        mapGet (stepState s e).userNames c = mapGet s.userNames c) := by
  constructor
  · intro s c x y
    rfl
  · intro s e c hj hd
    cases e with
    | joinRoom c' nm =>
        have hcc : c ≠ c' := by
          intro hcc
          exact hj nm (by rw [hcc])
        simp only [stepState, step]
        exact mapGet_mapSet_ne s.userNames c' c _ hcc
    | drawBatch c' input =>
        cases input with
        | arr b => rfl
        | str st => rfl
        | other => rfl
    | cursor c' x y => rfl
    | updateBatch c' input =>
        cases input with
        | arr items => rfl
        | str st => rfl
        | other => rfl
    | deleteBatch c' input =>
        cases input with
        | arr ids => rfl
        | str sIds => rfl
        | other =>
            cases hh : s.drawingHistory with
            | nil => simp [stepState, step, hh]
            | cons a t => simp [stepState, step, hh]
    | undo c' =>
        cases hh : s.drawingHistory with
        | nil => simp [stepState, step, hh]
        | cons a t => simp [stepState, step, hh]
    | clear c' => rfl
    | sendingSignal c' t sig cid => rfl
    | returningSignal c' cid sig => rfl
    | iceCandidate c' t cand => rfl
    | screenSignal c' t sig => rfl
    | startScreenShare c' =>
        cases hs : s.screenSharerId with
        | none => simp [stepState, step, hs]
        | some o => simp [stepState, step, hs]
    | stopScreenShare c' =>
        by_cases hs : s.screenSharerId = some c'
        · simp [stepState, step, hs]
        · simp [stepState, step, hs]
    | disconnect c' =>
        have hcc : c ≠ c' := by
          intro hcc
          exact hd (by rw [hcc])
        simp only [stepState, step]
        exact mapGet_mapDelete_ne s.userNames c' c hcc

theorem cursorFreshColorNameStable_witness :
    step { initState ["#ABCDEF"] with userNames := [("c", "Ann")] } (.cursor "c" 3 4)
      = .ok { initState [] with userNames := [("c", "Ann")] }
          [Msg.mk (.broadcastFrom "c") (.cursorMsg "c" 3 4 "#ABCDEF") true]
  ∧ mapGet (stepState { initState [] with userNames := [("c", "Ann")] } (.clear "d")).userNames "c"
      = mapGet ({ initState [] with userNames := [("c", "Ann")] } : ServerState).userNames "c" :=
  ⟨cursorFreshColorNameStable.1 { initState ["#ABCDEF"] with userNames := [("c", "Ann")] } "c" 3 4,
   cursorFreshColorNameStable.2 { initState [] with userNames := [("c", "Ann")] } (.clear "d") "c"
     (fun _ h => Event.noConfusion h) (fun h => Event.noConfusion h)⟩

/-- Claim C9: the update_batch handler folds each op over the history; an op
whose id occurs replaces the entry at the first matching index in place
(same position, same length, all other entries untouched), and an op whose
id matches no entry leaves the history exactly unchanged. -/
theorem updateBatchSemantics :
    (∀ s c items, step s (.updateBatch c (.arr items))
        = .ok { s with drawingHistory := updateBatchFn items s.drawingHistory }
            [Msg.mk (.broadcastFrom c) (.updateBatchMsg items) false])
  ∧ (∀ h upd, (∀ x ∈ h, x.id ≠ upd.id) → updateOne h upd = h)
  ∧ (∀ h upd idx, findIndex (fun i => i.id == upd.id) h = some idx →
      updateOne h upd = h.set idx upd
      ∧ (h.set idx upd).length = h.length
      ∧ (h.set idx upd).get? idx = some upd
      ∧ (∀ j, j ≠ idx → (h.set idx upd).get? j = h.get? j)) := by
  refine ⟨fun s c items => rfl, ?_, ?_⟩
  · intro h upd hno
    have : findIndex (fun i => i.id == upd.id) h = none := by
      rw [findIndex_none_iff]
      intro x hx
      simp [hno x hx]
    simp [updateOne, this]
  · intro h upd idx hf
    obtain ⟨hlt, x, hget, hpx⟩ := findIndex_some _ _ _ hf
    refine ⟨by simp [updateOne, hf], by simp, ?_, ?_⟩
    · simp [List.get?_eq_getElem?, List.getElem?_set_self', hlt]
    · intro j hj
      simp [List.get?_eq_getElem?, List.getElem?_set_ne (Ne.symm hj)]

theorem updateBatchSemantics_witness :
    step { initState [] with drawingHistory := [⟨"a", "p"⟩, ⟨"b", "q"⟩] }
        (.updateBatch "c" (.arr [⟨"b", "r"⟩]))
      = .ok { initState [] with drawingHistory := [⟨"a", "p"⟩, ⟨"b", "r"⟩] }
          [Msg.mk (.broadcastFrom "c") (.updateBatchMsg [⟨"b", "r"⟩]) false]
  ∧ updateOne [⟨"a", "p"⟩, ⟨"b", "q"⟩] ⟨"z", "r"⟩ = [⟨"a", "p"⟩, ⟨"b", "q"⟩]
  ∧ updateOne [⟨"a", "p"⟩, ⟨"b", "q"⟩] ⟨"b", "r"⟩ = ([⟨"a", "p"⟩, ⟨"b", "q"⟩] : List DrawOp).set 1
      ⟨"b", "r"⟩ :=
  ⟨updateBatchSemantics.1 { initState [] with drawingHistory := [⟨"a", "p"⟩, ⟨"b", "q"⟩] } "c"
      [⟨"b", "r"⟩],
   updateBatchSemantics.2.1 [⟨"a", "p"⟩, ⟨"b", "q"⟩] ⟨"z", "r"⟩ (by decide),
   (updateBatchSemantics.2.2 [⟨"a", "p"⟩, ⟨"b", "q"⟩] ⟨"b", "r"⟩ 1 (by decide)).1⟩

/-- Claim C10, counterexample: a connection that never joined (the registry
is empty) can still hold the ScreenShareLock, so its disconnect clears the
lock and broadcasts a stop — the disconnect does not leave the lock
unchanged. -/
theorem disconnectUnjoinedSharer_cex :
    (runState (initState []) [.startScreenShare "c"]).userNames = []
    ∧ (runState (initState []) [.startScreenShare "c"]).screenSharerId = some "c"
    ∧ (runState (initState []) [.startScreenShare "c", .disconnect "c"]).screenSharerId = none
    ∧ ((stepOut (runState (initState []) [.startScreenShare "c"]) (.disconnect "c")).filter
        isStopMsg).length = 1 := by
  decide

/-- Claim C10 (amended): a disconnect from a connection that is not in the
registry and does not hold the ScreenShareLock leaves the whole state
(registry, history, lock) unchanged and emits no leave notification and no
stop, yet still broadcasts user-disconnected and the unchanged user-count to
all. -/
theorem disconnectUnjoined (s : ServerState) (c : String)
    (hn : mapGet s.userNames c = none) (hs : s.screenSharerId ≠ some c) :
    step s (.disconnect c)
      = .ok s [Msg.mk .toAll (.userDisconnected c) false,
          Msg.mk .toAll (.userCount s.userNames.length) false] := by
  have hd := mapDelete_of_absent s.userNames c hn
  simp [step, hn, hs, hd]

theorem disconnectUnjoined_witness :
    step { initState [] with userNames := [("d", "Bob")], screenSharerId := some "d" }
        (.disconnect "c")
      = .ok { initState [] with userNames := [("d", "Bob")], screenSharerId := some "d" }
          [Msg.mk .toAll (.userDisconnected "c") false, Msg.mk .toAll (.userCount 1) false] :=
  disconnectUnjoined { initState [] with userNames := [("d", "Bob")], screenSharerId := some "d" }
    "c" (by decide) (by decide)
